import Mathlib

/-!
Verification of the HealthArchive dataset release scripts.

This file gives a shallow embedding of the two scripts
`scripts/build_release.py` and `scripts/validate_release_bundle.py`
and proves properties of the embedded definitions.

Modelling conventions:
* Bytes are `Nat` values; byte strings are `List Nat`.
* A line received from the NDJSON export endpoint is a `Row`: its raw
  bytes together with the value of the configured id field when the
  parsed JSON object carries that field with an integer value
  (`json.loads` is assumed to succeed on non-blank lines, as the spec
  assumes well-formed NDJSON from the server).
* A server page is the list of lines one HTTP response yields.
* The gzip sink is modelled by the sequence of bytes written to it;
  the compressed file is identified by the triple
  (compression level, mtime header field, written bytes), since the
  deflate transform is a fixed deterministic function of these.
-/

namespace BuildRelease

/-- Python `bytes.strip()` removes ASCII whitespace: a line is blank
when every byte is whitespace (`if not raw_line.strip(): continue`). -/
def isBlankByte (b : Nat) : Bool :=
  b = 32 || b = 9 || b = 10 || b = 13 || b = 11 || b = 12

def isBlank (l : List Nat) : Bool := l.all isBlankByte

/-- The line as written: `raw_line` if it ends with `b"\n"`, else
`raw_line + b"\n"`. -/
def nlTerminate (l : List Nat) : List Nat :=
  if l.getLast? = some 10 then l else l ++ [10]

/-- One line of an NDJSON response: raw bytes plus the id-field value
when present and integer-typed in the parsed object. -/
structure Row where
  bytes : List Nat
  id : Option Int
deriving DecidableEq, Repr

abbrev Page := List Row

/-- Running accumulators of `_download_export_to_gzip_jsonl`:
`rows`, `min_id`, `max_id` and the bytes written to the gzip sink. -/
structure Stats where
  rows : Nat
  minId : Option Int
  maxId : Option Int
  out : List Nat
deriving DecidableEq, Repr

/-- Per-page accumulators `page_rows` and `last_id` alongside `Stats`. -/
structure PageAcc where
  pageRows : Nat
  lastId : Option Int
  st : Stats
deriving DecidableEq, Repr

/-- The body of `for raw_line in resp` for one line. -/
def stepLine (a : PageAcc) (x : Row) : PageAcc :=
  if isBlank x.bytes then a
  else
    let line := nlTerminate x.bytes
    match x.id with
    | some v =>
      { pageRows := a.pageRows + 1
        lastId := some v
        st :=
          { rows := a.st.rows + 1
            minId := some (a.st.minId.getD v)
            maxId := some v
            out := a.st.out ++ line } }
    | none =>
      { pageRows := a.pageRows + 1
        lastId := a.lastId
        st :=
          { rows := a.st.rows + 1
            minId := a.st.minId
            maxId := a.st.maxId
            out := a.st.out ++ line } }

/-- The dictionary returned by `_download_export_to_gzip_jsonl`
(the fields the pagination logic computes). -/
structure ExportRunResult where
  rows : Nat
  minId : Option Int
  maxId : Option Int
  requestsMade : Nat
  out : List Nat
deriving DecidableEq, Repr

inductive ProtocolError where
  /-- `Export ... returned rows without the id field`. -/
  | noUsableId
  /-- `Pagination did not advance: afterId=… lastId=…`. -/
  | nonAdvancing (afterId lastId : Int)
deriving DecidableEq, Repr

inductive ExportOutcome where
  | ok (r : ExportRunResult)
  | protoErr (e : ProtocolError)
  /-- The supplied finite page sequence was exhausted before a
  zero-row page: the real loop would keep requesting pages. -/
  | outOfPages
deriving DecidableEq, Repr

/-- The `while True` pagination loop, driven by the finite list of
pages the server answers with (page `k+1` is the response to the
request carrying the cursor computed from page `k`). -/
def runPages (afterId : Option Int) (req : Nat) (st : Stats) :
    List Page → ExportOutcome
  | [] => .outOfPages
  | p :: rest =>
    let a := p.foldl stepLine ⟨0, none, st⟩
    if a.pageRows = 0 then
      .ok ⟨a.st.rows, a.st.minId, a.st.maxId, req + 1, a.st.out⟩
    else
      match a.lastId with
      | none => .protoErr .noUsableId
      | some l =>
        match afterId with
        | some prev =>
          if l ≤ prev then .protoErr (.nonAdvancing prev l)
          else runPages (some l) (req + 1) a.st rest
        | none => runPages (some l) (req + 1) a.st rest

/-- A full export run from the initial state. -/
def runExport (pages : List Page) : ExportOutcome :=
  runPages none 0 ⟨0, none, none, []⟩ pages

/-- The non-blank lines of a page (the lines counted as rows). -/
def rowsOf (p : Page) : List Row := p.filter (fun x => !isBlank x.bytes)

def pageRowCount (p : Page) : Nat := (rowsOf p).length

/-- The integer ids carried by the page's rows, in order. -/
def pageIds (p : Page) : List Int := (rowsOf p).filterMap Row.id

/-- The bytes the page contributes to the sink. -/
def pageOut (p : Page) : List Nat :=
  ((rowsOf p).map (fun x => nlTerminate x.bytes)).flatten

def flatIds (pl : List Page) : List Int := (pl.map pageIds).flatten

def totalRowCount (pl : List Page) : Nat := (pl.map pageRowCount).sum

def flatOut (pl : List Page) : List Nat := (pl.map pageOut).flatten

/-- The `Stats` after folding one page on top of `st`. -/
def pageStats (st : Stats) (p : Page) : Stats :=
  { rows := st.rows + pageRowCount p
    minId := st.minId.or (pageIds p).head?
    maxId := ((pageIds p).getLast?).or st.maxId
    out := st.out ++ pageOut p }

/-- Duration of `time.sleep(1.5**attempt)` in seconds. -/
def backoff (attempt : Nat) : ℚ := (3 / 2) ^ attempt

/-- The `RuntimeError` raised after retries are exhausted: it carries
the URL and the last underlying error. -/
structure FetchErr (E : Type) where
  url : String
  lastErr : E
deriving DecidableEq, Repr

/-- Observable behavior of one `_http_json` / `_http_ndjson_stream`
call: how many attempts ran, the sleeps between them, the outcome. -/
structure RetryTrace (E V : Type) where
  attemptsMade : Nat
  sleeps : List ℚ
  result : Except (FetchErr E) V

/-- The `for attempt in range(retries + 1)` loop. `outcomes i` is what
attempt `i` would produce (transport error / non-200 / decode failure
are all `.error`). `remaining` counts the attempts still allowed after
the current one. -/
def retryFrom {E V : Type} (url : String) (outcomes : Nat → Except E V) :
    Nat → Nat → RetryTrace E V
  | 0, attempt =>
    match outcomes attempt with
    | .ok v => ⟨1, [], .ok v⟩
    | .error e => ⟨1, [], .error ⟨url, e⟩⟩
  | r + 1, attempt =>
    match outcomes attempt with
    | .ok v => ⟨1, [], .ok v⟩
    | .error _ =>
      let t := retryFrom url outcomes r (attempt + 1)
      ⟨t.attemptsMade + 1, backoff attempt :: t.sleeps, t.result⟩

/-- One `_http_json url retries` / `_http_ndjson_stream url retries`
call. -/
def httpFetch {E V : Type} (url : String) (outcomes : Nat → Except E V)
    (retries : Nat) : RetryTrace E V :=
  retryFrom url outcomes retries 0

/-- The line `max_limit = int(exports_manifest.get("maxLimit") or args.limit)`
followed by `limit = min(int(args.limit), max_limit)`: an absent,
null or zero `maxLimit` is falsy in Python, so the requested limit is
used in its place. -/
def effectiveLimit (requested : Int) (maxLimit : Option Int) : Int :=
  min requested
    (match maxLimit with
     | some v => if v = 0 then requested else v
     | none => requested)

/-- A gzip member written with `gzip.open(..., compresslevel=6,
mtime=0)`: the compressed bytes are a fixed deterministic function of
the compression level, the mtime header field, and the payload, so the
file is identified by this triple. -/
structure GzFile where
  compressLevel : Nat
  mtime : Nat
  data : List Nat
deriving DecidableEq, Repr

/-- The artifact-producing slice of `main`: two exports, the two
compressed files and their digests, plus the wall-clock timestamp that
only feeds `releasedAtUtc`. -/
structure ReleaseBuild where
  tag : String
  releasedAt : Nat
  snapshotsFile : GzFile
  changesFile : GzFile
  snapshotsSha : String
  changesSha : String
deriving DecidableEq, Repr

def buildRelease (hash : GzFile → String) (now : Nat) (tag : String)
    (snapPages changePages : List Page) : Option ReleaseBuild :=
  match runExport snapPages, runExport changePages with
  | .ok s, .ok c =>
    some ⟨tag, now, ⟨6, 0, s.out⟩, ⟨6, 0, c.out⟩,
      hash ⟨6, 0, s.out⟩, hash ⟨6, 0, c.out⟩⟩
  | _, _ => none

end BuildRelease

namespace ValidateBundle

/-- A JSON value as `json.loads` yields it, restricted to the shapes
the artifact parser distinguishes: null, bool, int, string, and
anything else (float, array, object). -/
inductive JVal where
  | jnull
  | jbool (b : Bool)
  | jint (n : Int)
  | jstr (s : String)
  | jother
deriving DecidableEq, Repr

/-- The validator-side `Artifact` dataclass. -/
structure Artifact where
  name : String
  filename : String
  sha256 : String
  rows : Int
  minId : Option Int
  maxId : Option Int
  requestsMade : Int
  limitPerRequest : Int
  truncated : Bool
deriving DecidableEq, Repr

/-- Python `isinstance(v, int)` also accepts booleans (bool is a
subclass of int); True counts as 1 and False as 0. -/
def asPyInt : JVal → Option Int
  | .jint n => some n
  | .jbool b => some (if b then 1 else 0)
  | _ => none

/-- Python `str.strip()`: remove leading and trailing whitespace.
Defined structurally so that it evaluates inside the kernel. -/
def pyStrip (s : String) : String :=
  ⟨((s.data.dropWhile Char.isWhitespace).reverse.dropWhile
      Char.isWhitespace).reverse⟩

/-- Helper `req_str`: the field must be present, a string, and non-blank
after stripping; the stripped value is returned. -/
def reqStr (meta : String → Option JVal) (name k : String) :
    Except String String :=
  match meta k with
  | none => .error ("manifest missing required field: " ++ k)
  | some (.jstr s) =>
    if (pyStrip s) = "" then
      .error ("artifacts." ++ name ++ "." ++ k ++ " must be a non-empty string")
    else .ok (pyStrip s)
  | some _ =>
    .error ("artifacts." ++ name ++ "." ++ k ++ " must be a non-empty string")

/-- Helper `req_int`. -/
def reqInt (meta : String → Option JVal) (name k : String) :
    Except String Int :=
  match meta k with
  | none => .error ("manifest missing required field: " ++ k)
  | some v =>
    match asPyInt v with
    | some n => .ok n
    | none => .error ("artifacts." ++ name ++ "." ++ k ++ " must be an integer")

/-- Helper `opt_int`: `meta.get(k)` is None both for an absent key and for a
JSON null, so both yield `none`. -/
def optInt (meta : String → Option JVal) (name k : String) :
    Except String (Option Int) :=
  match meta k with
  | none => .ok none
  | some .jnull => .ok none
  | some v =>
    match asPyInt v with
    | some n => .ok (some n)
    | none =>
      .error ("artifacts." ++ name ++ "." ++ k ++ " must be an integer or null")

/-- Helper `req_bool`: only a genuine bool passes `isinstance(v, bool)`. -/
def reqBool (meta : String → Option JVal) (name k : String) :
    Except String Bool :=
  match meta k with
  | none => .error ("manifest missing required field: " ++ k)
  | some (.jbool b) => .ok b
  | some _ => .error ("artifacts." ++ name ++ "." ++ k ++ " must be a boolean")

/-- The rows/minId/maxId consistency block of `_parse_artifact`. -/
def idChecks (name : String) (rows : Int) (minId maxId : Option Int)
    (requestsMade : Int) : Except String Unit :=
  if rows = 0 then
    if minId.isSome || maxId.isSome then
      .error ("artifacts." ++ name ++ " has rows=0 but minId/maxId are not null")
    else .ok ()
  else
    match minId, maxId with
    | some m, some M =>
      if m > M then .error ("artifacts." ++ name ++ ".minId must be <= maxId")
      else if requestsMade < 1 then
        .error ("artifacts." ++ name ++ ".requestsMade must be >= 1 when rows>0")
      else .ok ()
    | _, _ => .error ("artifacts." ++ name ++ " has rows>0 but minId/maxId are null")

/-- The function `_parse_artifact`. -/
def parseArtifact (meta : String → Option JVal) (name : String) :
    Except String Artifact := do
  let filename ← reqStr meta name "filename"
  let sha ← reqStr meta name "sha256"
  let rows ← reqInt meta name "rows"
  let minId ← optInt meta name "minId"
  let maxId ← optInt meta name "maxId"
  let requestsMade ← reqInt meta name "requestsMade"
  let limitPerRequest ← reqInt meta name "limitPerRequest"
  let truncated ← reqBool meta name "truncated"
  if rows < 0 then
    .error ("artifacts." ++ name ++ ".rows must be >= 0")
  else do
    let _ ← idChecks name rows minId maxId requestsMade
    if limitPerRequest ≤ 0 then
      .error ("artifacts." ++ name ++ ".limitPerRequest must be > 0")
    else if requestsMade ≤ 0 then
      .error ("artifacts." ++ name ++ ".requestsMade must be > 0")
    else
      .ok ⟨name, filename, sha, rows, minId, maxId, requestsMade,
        limitPerRequest, truncated⟩

def isOkE {α : Type} (e : Except String α) : Bool :=
  match e with
  | .ok _ => true
  | .error _ => false

/-- Spec-side typing: a present, non-blank string field. -/
def strFieldOk (x : Option JVal) : Prop :=
  ∃ s, x = some (.jstr s) ∧ (pyStrip s) ≠ ""

/-- Spec-side typing: a present, integer-typed field. -/
def intFieldOk (x : Option JVal) : Prop :=
  ∃ v n, x = some v ∧ asPyInt v = some n

/-- Spec-side typing: an absent, null, or integer-typed field. -/
def optIntFieldOk (x : Option JVal) : Prop :=
  x = none ∨ x = some .jnull ∨ ∃ v n, x = some v ∧ asPyInt v = some n

/-- Spec-side typing: a present boolean field. -/
def boolFieldOk (x : Option JVal) : Prop :=
  ∃ b, x = some (.jbool b)

def intValOf (x : Option JVal) : Option Int := x.bind asPyInt

def optIntValOf (x : Option JVal) : Option Int :=
  match x with
  | some .jnull => none
  | some v => asPyInt v
  | none => none

/-- The spec's artifact invariants (§3 of the spec), stated over the
raw manifest object: field presence/typing plus `rows >= 0`,
`rows == 0 ⇒ minId == maxId == null`, `rows > 0 ⇒ minId != null ∧
maxId != null ∧ minId <= maxId ∧ requestsMade >= 1`,
`limitPerRequest > 0`, `requestsMade > 0`. -/
def validArtifactMeta (meta : String → Option JVal) : Prop :=
  strFieldOk (meta "filename") ∧ strFieldOk (meta "sha256") ∧
  intFieldOk (meta "rows") ∧ optIntFieldOk (meta "minId") ∧
  optIntFieldOk (meta "maxId") ∧ intFieldOk (meta "requestsMade") ∧
  intFieldOk (meta "limitPerRequest") ∧ boolFieldOk (meta "truncated") ∧
  (∀ r, intValOf (meta "rows") = some r →
    0 ≤ r ∧
    (r = 0 → optIntValOf (meta "minId") = none ∧
      optIntValOf (meta "maxId") = none) ∧
    (0 < r → ∃ m M, optIntValOf (meta "minId") = some m ∧
      optIntValOf (meta "maxId") = some M ∧ m ≤ M ∧
      ∀ q, intValOf (meta "requestsMade") = some q → 1 ≤ q)) ∧
  (∀ l, intValOf (meta "limitPerRequest") = some l → 0 < l) ∧
  (∀ q, intValOf (meta "requestsMade") = some q → 0 < q)

/-- The truncated/empty publish gates of `main`, plus the final
warning flag printed on success. -/
def publishGates (s c : Artifact) (allowTruncated allowEmpty : Bool) :
    Except String Bool :=
  if !allowTruncated && (s.truncated || c.truncated) then
    .error "truncated release is not publishable"
  else if !allowEmpty && (s.rows == 0 || c.rows == 0) then
    .error "rows=0 is suspicious; aborting"
  else
    .ok (s.truncated || c.truncated)

/-- The `_validate_sha256sums` parsing loop: each raw line is given by its
whitespace-separated tokens (a blank line has no tokens). Returns the
(filename, sha) pairs in line order. -/
def parseSums : List (List String) → Except String (List (String × String))
  | [] => .ok []
  | t :: rest =>
    match t with
    | [] => parseSums rest
    | [_] => .error "Invalid SHA256SUMS line"
    | sha :: x :: xs =>
      match parseSums rest with
      | .error e => .error e
      | .ok tail => .ok (((x :: xs).getLast (List.cons_ne_nil x xs), sha) :: tail)

/-- Keys of the `expected` dict in insertion order (first occurrence
kept, as Python dicts preserve the first insertion position). -/
def firstKeys : List String → List String
  | [] => []
  | k :: r => k :: (firstKeys r).filter (fun x => x != k)

/-- The digest stored in the `expected` dict for a filename: the one
from the last line naming it, since later assignments overwrite. -/
def lastVal (pairs : List (String × String)) (fn : String) : Option String :=
  ((pairs.filter (fun q => q.1 == fn)).map Prod.snd).getLast?

/-- The verification loop over `expected.items()`. -/
def checkFiles (hash : List Nat → String) (disk : String → Option (List Nat))
    (pairs : List (String × String)) : List String → Except String Unit
  | [] => .ok ()
  | fn :: rest =>
    match disk fn with
    | none => .error ("SHA256SUMS references missing file: " ++ fn)
    | some content =>
      match lastVal pairs fn with
      | none => .error ("SHA256SUMS internal lookup failure for " ++ fn)
      | some sha =>
        if hash content = sha then checkFiles hash disk pairs rest
        else .error ("SHA256 mismatch for " ++ fn)

/-- The function `_validate_sha256sums`: `hash` abstracts the streaming SHA-256 of
a file's bytes, `disk` maps a filename to its bytes when the file
exists in the bundle directory. -/
def validateSums (hash : List Nat → String)
    (disk : String → Option (List Nat))
    (lines : List (List String)) : Except String Unit :=
  match parseSums lines with
  | .error e => .error e
  | .ok pairs =>
    if pairs.isEmpty then .error "SHA256SUMS is empty"
    else checkFiles hash disk pairs (firstKeys (pairs.map Prod.fst))

/-- A concrete valid artifact object, used for the C6 witness. -/
def sampleMeta : String → Option JVal := fun k =>
  if k = "filename" then some (.jstr "healtharchive-snapshots.jsonl.gz")
  else if k = "sha256" then some (.jstr "ab12")
  else if k = "rows" then some (.jint 2)
  else if k = "minId" then some (.jint 1)
  else if k = "maxId" then some (.jint 3)
  else if k = "requestsMade" then some (.jint 1)
  else if k = "limitPerRequest" then some (.jint 5)
  else if k = "truncated" then some (.jbool false)
  else none

end ValidateBundle

namespace BuildRelease

theorem getLast?_cons_or (v : Int) (l : List Int) :
    (v :: l).getLast? = l.getLast?.or (some v) := by
  induction l with
  | nil => rfl
  | cons b t ih =>
    cases t with
    | nil => rfl
    | cons c u =>
      simp only [List.getLast?_cons_cons] at ih ⊢
      exact ih

theorem some_getD_or (o : Option Int) (v : Int) :
    some (o.getD v) = o.or (some v) := by
  cases o <;> rfl

theorem foldl_stepLine (p : Page) (a : PageAcc) :
    p.foldl stepLine a =
      ⟨a.pageRows + pageRowCount p,
       ((pageIds p).getLast?).or a.lastId,
       { rows := a.st.rows + pageRowCount p
         minId := a.st.minId.or (pageIds p).head?
         maxId := ((pageIds p).getLast?).or a.st.maxId
         out := a.st.out ++ pageOut p }⟩ := by
  induction p generalizing a with
  | nil =>
    simp [pageRowCount, rowsOf, pageIds, pageOut]
  | cons x t ih =>
    by_cases hb : isBlank x.bytes
    · have hstep : stepLine a x = a := by simp [stepLine, hb]
      have hr : rowsOf (x :: t) = rowsOf t := by simp [rowsOf, hb]
      simp only [List.foldl_cons, hstep, ih,
        pageRowCount, pageIds, pageOut, hr]
    · have hr : rowsOf (x :: t) = x :: rowsOf t := by simp [rowsOf, hb]
      cases hid : x.id with
      | some v =>
        have hstep : stepLine a x =
            ⟨a.pageRows + 1, some v,
             { rows := a.st.rows + 1
               minId := some (a.st.minId.getD v)
               maxId := some v
               out := a.st.out ++ nlTerminate x.bytes }⟩ := by
          simp [stepLine, hb, hid]
        have hids : pageIds (x :: t) = v :: pageIds t := by
          simp [pageIds, hr, hid]
        have hcount : pageRowCount (x :: t) = pageRowCount t + 1 := by
          simp [pageRowCount, hr]
        have hout : pageOut (x :: t) = nlTerminate x.bytes ++ pageOut t := by
          simp [pageOut, hr]
        rw [List.foldl_cons, hstep, ih]
        simp [hids, hcount, hout, getLast?_cons_or, Option.or_assoc,
          some_getD_or, Nat.add_assoc, Nat.add_comm 1]
      | none =>
        have hstep : stepLine a x =
            ⟨a.pageRows + 1, a.lastId,
             { rows := a.st.rows + 1
               minId := a.st.minId
               maxId := a.st.maxId
               out := a.st.out ++ nlTerminate x.bytes }⟩ := by
          simp [stepLine, hb, hid]
        have hids : pageIds (x :: t) = pageIds t := by
          simp [pageIds, hr, hid]
        have hcount : pageRowCount (x :: t) = pageRowCount t + 1 := by
          simp [pageRowCount, hr]
        have hout : pageOut (x :: t) = nlTerminate x.bytes ++ pageOut t := by
          simp [pageOut, hr]
        rw [List.foldl_cons, hstep, ih]
        simp [hids, hcount, hout, Nat.add_assoc, Nat.add_comm 1]

theorem head?_append_or (l1 l2 : List Int) :
    (l1 ++ l2).head? = l1.head?.or l2.head? := by
  cases l1 <;> simp

theorem getLast?_append_or (l1 l2 : List Int) :
    (l1 ++ l2).getLast? = l2.getLast?.or l1.getLast? := by
  induction l1 with
  | nil => simp
  | cons a t ih =>
    rw [List.cons_append, getLast?_cons_or, ih, getLast?_cons_or,
      Option.or_assoc]

theorem mem_of_getLast?_eq {l : List Int} {M : Int}
    (h : l.getLast? = some M) : M ∈ l := by
  induction l with
  | nil => simp at h
  | cons a t ih =>
    rw [getLast?_cons_or] at h
    cases ht : t.getLast? with
    | none => rw [ht] at h; simp at h; simp [h]
    | some b =>
      rw [ht] at h
      simp at h
      subst h
      exact List.mem_cons_of_mem a (ih ht)

theorem sorted_head_le {ids : List Int} {m : Int}
    (hs : ids.Sorted (· ≤ ·)) (hh : ids.head? = some m) :
    ∀ i ∈ ids, m ≤ i := by
  cases ids with
  | nil => simp at hh
  | cons a t =>
    simp at hh
    subst hh
    intro i hi
    rcases List.mem_cons.mp hi with rfl | hi
    · exact le_refl i
    · exact (List.pairwise_cons.mp hs).1 i hi

theorem sorted_le_getLast {ids : List Int} {M : Int}
    (hs : ids.Sorted (· ≤ ·)) (hl : ids.getLast? = some M) :
    ∀ i ∈ ids, i ≤ M := by
  induction ids with
  | nil => simp at hl
  | cons a t ih =>
    rw [getLast?_cons_or] at hl
    intro i hi
    cases ht : t.getLast? with
    | none =>
      rw [ht] at hl
      simp at hl
      have ht0 : t = [] := by
        cases t with
        | nil => rfl
        | cons b u => rw [getLast?_cons_or] at ht; cases u.getLast? <;> simp at ht
      subst ht0
      simp at hi
      simp [hi, ← hl]
    | some b =>
      rw [ht] at hl
      simp at hl
      have ht2 : t.getLast? = some M := by rw [ht, hl]
      rcases List.mem_cons.mp hi with rfl | hi
      · exact hl ▸ (List.pairwise_cons.mp hs).1 b (mem_of_getLast?_eq ht)
      · exact ih (List.pairwise_cons.mp hs).2 ht2 i hi

/-- Characterization of a successful run over well-formed input:
`pl` pages each with at least one row, then the terminating empty
page. -/
theorem runPages_ok_char (pl : List Page) :
    ∀ afterId req st r,
      (∀ p ∈ pl, pageRowCount p ≠ 0) →
      runPages afterId req st (pl ++ [[]]) = .ok r →
      r = ⟨st.rows + totalRowCount pl,
           st.minId.or (flatIds pl).head?,
           ((flatIds pl).getLast?).or st.maxId,
           req + pl.length + 1,
           st.out ++ flatOut pl⟩ := by
  induction pl with
  | nil =>
    intro afterId req st r _ hrun
    simp only [List.nil_append, runPages, foldl_stepLine] at hrun
    simp [pageRowCount, rowsOf, pageIds, pageOut] at hrun
    simp [totalRowCount, flatIds, flatOut, ← hrun]
  | cons p t ih =>
    intro afterId req st r hne hrun
    have hp : pageRowCount p ≠ 0 := hne p (by simp)
    rw [List.cons_append] at hrun
    simp only [runPages, foldl_stepLine, Nat.zero_add, Option.or_none,
      if_neg hp] at hrun
    have hflat : flatIds (p :: t) = pageIds p ++ flatIds t := by
      simp [flatIds]
    have htot : totalRowCount (p :: t) = pageRowCount p + totalRowCount t := by
      simp [totalRowCount]
    have hout : flatOut (p :: t) = pageOut p ++ flatOut t := by
      simp [flatOut]
    cases hl : (pageIds p).getLast? with
    | none => rw [hl] at hrun; simp at hrun
    | some l =>
      rw [hl] at hrun
      have step :
          runPages (some l) (req + 1)
            { rows := st.rows + pageRowCount p
              minId := st.minId.or (pageIds p).head?
              maxId := (some l).or st.maxId
              out := st.out ++ pageOut p } (t ++ [[]]) = .ok r := by
        cases afterId with
        | none => exact hrun
        | some prev =>
          have hrun2 :
              (if l ≤ prev then
                ExportOutcome.protoErr (.nonAdvancing prev l)
              else
                runPages (some l) (req + 1)
                  { rows := st.rows + pageRowCount p
                    minId := st.minId.or (pageIds p).head?
                    maxId := (some l).or st.maxId
                    out := st.out ++ pageOut p } (t ++ [[]])) = .ok r := hrun
          by_cases hle : l ≤ prev
          · rw [if_pos hle] at hrun2; simp at hrun2
          · rw [if_neg hle] at hrun2; exact hrun2
      have heq := ih (some l) (req + 1) _ r (fun q hq => hne q (by simp [hq])) step
      subst heq
      simp only [hflat, htot, hout, ExportRunResult.mk.injEq]
      refine ⟨by omega, ?_, ?_, by simp; omega, by simp⟩
      · rw [head?_append_or, Option.or_assoc]
      · rw [getLast?_append_or, hl, Option.or_assoc]

/-- C2: pagination terminates at the first zero-row page, with
`requestsMade` counting every page fetched including that one. -/
theorem runPages_term (pages : List Page) :
    ∀ afterId req st,
      (∃ p ∈ pages, pageRowCount p = 0) →
      runPages afterId req st pages ≠ .outOfPages ∧
      ∀ r, runPages afterId req st pages = .ok r →
        r.requestsMade =
          req + pages.findIdx (fun p => pageRowCount p == 0) + 1 := by
  induction pages with
  | nil => intro _ _ _ h; simp at h
  | cons p t ih =>
    intro afterId req st h
    by_cases hp : pageRowCount p = 0
    · constructor
      · simp [runPages, foldl_stepLine, hp]
      · intro r hrun
        simp only [runPages, foldl_stepLine, Nat.zero_add, if_pos hp] at hrun
        rw [List.findIdx_cons]
        simp only [hp]
        injection hrun with hv
        rw [← hv]
        simp
    · have hrest : ∃ q ∈ t, pageRowCount q = 0 := by
        rcases h with ⟨q, hq, hq0⟩
        rcases List.mem_cons.mp hq with rfl | hq
        · exact absurd hq0 hp
        · exact ⟨q, hq, hq0⟩
      have hidx : (p :: t).findIdx (fun q => pageRowCount q == 0) =
          t.findIdx (fun q => pageRowCount q == 0) + 1 := by
        rw [List.findIdx_cons]
        have hb : (pageRowCount p == 0) = false := by
          simpa using hp
        rw [hb]
        rfl
      rw [hidx]
      simp only [runPages, foldl_stepLine, Nat.zero_add, Option.or_none,
        if_neg hp]
      cases hl : (pageIds p).getLast? with
      | none => simp
      | some l =>
        cases afterId with
        | none =>
          rcases ih (some l) (req + 1)
            { rows := st.rows + pageRowCount p
              minId := st.minId.or (pageIds p).head?
              maxId := (some l).or st.maxId
              out := st.out ++ pageOut p } hrest with ⟨h1, h2⟩
          exact ⟨h1, fun r hr => by rw [h2 r hr]; omega⟩
        | some prev =>
          rcases ih (some l) (req + 1)
            { rows := st.rows + pageRowCount p
              minId := st.minId.or (pageIds p).head?
              maxId := (some l).or st.maxId
              out := st.out ++ pageOut p } hrest with ⟨h1, h2⟩
          by_cases hle : l ≤ prev
          · simp [hle]
          · refine ⟨?_, ?_⟩
            · show (if l ≤ prev then
                  ExportOutcome.protoErr (.nonAdvancing prev l)
                else
                  runPages (some l) (req + 1)
                    { rows := st.rows + pageRowCount p
                      minId := st.minId.or (pageIds p).head?
                      maxId := (some l).or st.maxId
                      out := st.out ++ pageOut p } t) ≠ .outOfPages
              rw [if_neg hle]
              exact h1
            · intro r hr
              have hr2 : (if l ≤ prev then
                  ExportOutcome.protoErr (.nonAdvancing prev l)
                else
                  runPages (some l) (req + 1)
                    { rows := st.rows + pageRowCount p
                      minId := st.minId.or (pageIds p).head?
                      maxId := (some l).or st.maxId
                      out := st.out ++ pageOut p } t) = .ok r := hr
              rw [if_neg hle] at hr2
              rw [h2 r hr2]
              omega

theorem mem_of_head?_eq {l : List Int} {m : Int}
    (h : l.head? = some m) : m ∈ l := by
  cases l with
  | nil => simp at h
  | cons a t => simp at h; simp [h]

theorem getLast?_of_ne_nil {l : List Int} (h : l ≠ []) :
    ∃ M, l.getLast? = some M := by
  cases l with
  | nil => exact absurd rfl h
  | cons a t =>
    rw [getLast?_cons_or]
    cases t.getLast? with
    | none => exact ⟨a, rfl⟩
    | some b => exact ⟨b, rfl⟩

/-- C2: for any finite page sequence containing a zero-row page, the
pagination loop does not run out of pages, and a successful run makes
exactly as many requests as there are pages up to and including the
first zero-row page. -/
theorem pagination_termination_requests (pages : List Page)
    (h : ∃ p ∈ pages, pageRowCount p = 0) :
    runExport pages ≠ .outOfPages ∧
    ∀ r, runExport pages = .ok r →
      r.requestsMade = pages.findIdx (fun p => pageRowCount p == 0) + 1 := by
  have hterm := runPages_term pages none 0 ⟨0, none, none, []⟩ h
  simpa [runExport] using hterm

/-- Witness for C2 at a concrete two-page input. -/
theorem pagination_termination_requests_witness :
    pageRowCount ([] : Page) = 0 ∧
    runExport [[⟨[123, 10], some 1⟩], []] ≠ .outOfPages :=
  ⟨by decide, (pagination_termination_requests
    [[⟨[123, 10], some 1⟩], []] ⟨[], by simp, by decide⟩).1⟩

/-- C3: after a non-empty page the exporter raises ProtocolError
exactly when no row carried an integer id or when the cursor did not
advance; otherwise it continues with `afterId := lastId`. -/
theorem page_step_protocol (afterId : Option Int) (req : Nat) (st : Stats)
    (p : Page) (rest : List Page) (hne : pageRowCount p ≠ 0) :
    ((pageIds p).getLast? = none →
      runPages afterId req st (p :: rest) = .protoErr .noUsableId) ∧
    (∀ a l, afterId = some a → (pageIds p).getLast? = some l → l ≤ a →
      runPages afterId req st (p :: rest) = .protoErr (.nonAdvancing a l)) ∧
    (∀ l, (pageIds p).getLast? = some l →
      (∀ a, afterId = some a → a < l) →
      runPages afterId req st (p :: rest) =
        runPages (some l) (req + 1) (pageStats st p) rest) := by
  refine ⟨?_, ?_, ?_⟩
  · intro hl
    simp [runPages, foldl_stepLine, if_neg hne, hl]
  · intro a l ha hl hle
    subst ha
    simp [runPages, foldl_stepLine, if_neg hne, hl, hle]
  · intro l hl hgt
    cases afterId with
    | none =>
      simp [runPages, foldl_stepLine, if_neg hne, hl, pageStats]
    | some a =>
      have hlt := hgt a rfl
      simp [runPages, foldl_stepLine, if_neg hne, hl, pageStats,
        not_le.mpr hlt]

/-- Witness for C3: a non-advancing cursor raises. -/
theorem page_step_protocol_witness :
    runPages (some 5) 0 ⟨0, none, none, []⟩ [[⟨[123, 10], some 3⟩]] =
      .protoErr (.nonAdvancing 5 3) :=
  (page_step_protocol (some 5) 0 ⟨0, none, none, []⟩
    [⟨[123, 10], some 3⟩] [] (by decide)).2.1 5 3 rfl (by decide) (by decide)

/-- C1 counterexample: ids arriving as 5 then 3 in one page (then the
empty page) give a successful run with minId = 5 and maxId = 3, not
the claimed min = 3 / max = 5. -/
theorem minmax_counterexample :
    runExport [[⟨[123, 10], some 5⟩, ⟨[125, 10], some 3⟩], []] =
      .ok ⟨2, some 5, some 3, 2, [123, 10, 125, 10]⟩ ∧
    min (5 : Int) 3 = 3 ∧ (some (5 : Int) ≠ some (3 : Int)) ∧
    max (5 : Int) 3 = 5 ∧ (some (3 : Int) ≠ some (5 : Int)) := by
  decide

/-- C1 (amended): when the rows' integer ids are non-decreasing in
arrival order, a successful run reports totalRows = n, minId = the
minimum id and maxId = the maximum id. -/
theorem export_minmax_of_sorted (pl : List Page) (ids : List Int)
    (r : ExportRunResult)
    (hpages : ∀ p ∈ pl, pageRowCount p ≠ 0)
    (hids : flatIds pl = ids)
    (hcount : totalRowCount pl = ids.length)
    (hsorted : ids.Sorted (· ≤ ·))
    (hne : ids ≠ [])
    (hrun : runExport (pl ++ [[]]) = .ok r) :
    r.rows = ids.length ∧
    (∃ m, r.minId = some m ∧ m ∈ ids ∧ ∀ i ∈ ids, m ≤ i) ∧
    (∃ M, r.maxId = some M ∧ M ∈ ids ∧ ∀ i ∈ ids, i ≤ M) := by
  have hchar := runPages_ok_char pl none 0 ⟨0, none, none, []⟩ r hpages hrun
  subst hchar
  obtain ⟨m, hm⟩ : ∃ m, ids.head? = some m := by
    cases ids with
    | nil => exact absurd rfl hne
    | cons a t => exact ⟨a, rfl⟩
  obtain ⟨M, hM⟩ := getLast?_of_ne_nil hne
  refine ⟨by simp [hids, hcount], ⟨m, ?_, mem_of_head?_eq hm,
    sorted_head_le hsorted hm⟩, ⟨M, ?_, mem_of_getLast?_eq hM,
    sorted_le_getLast hsorted hM⟩⟩
  · simp [hids, hm]
  · simp [hids, hM]

/-- Witness for C1 (amended) on ids 1, 4, 9 split across two pages. -/
theorem export_minmax_of_sorted_witness :
    (ExportRunResult.mk 3 (some 1) (some 9) 3
      [123, 10, 125, 10, 123, 10]).rows = 3 ∧
    (∃ m, (ExportRunResult.mk 3 (some 1) (some 9) 3
      [123, 10, 125, 10, 123, 10]).minId = some m ∧
      m ∈ [(1 : Int), 4, 9] ∧ ∀ i ∈ [(1 : Int), 4, 9], m ≤ i) := by
  have h := export_minmax_of_sorted
    [[⟨[123, 10], some 1⟩, ⟨[125, 10], some 4⟩], [⟨[123, 10], some 9⟩]]
    [1, 4, 9] ⟨3, some 1, some 9, 3, [123, 10, 125, 10, 123, 10]⟩
    (by decide) (by decide) (by decide) (by decide) (by decide) (by decide)
  exact ⟨h.1, h.2.1⟩

theorem flatOut_eq_flatten (pl : List Page) :
    flatOut pl = ((pl.flatten.filter (fun x => !isBlank x.bytes)).map
      (fun x => nlTerminate x.bytes)).flatten := by
  induction pl with
  | nil => simp [flatOut]
  | cons p t ih =>
    simp [flatOut, pageOut, rowsOf, List.filter_append, List.map_append,
      List.flatten_append] at ih ⊢
    simp [ih]

/-- C8 (amended): a successful run writes exactly the non-blank
received lines, in arrival order, each newline-terminated (a newline
is appended when the received line lacks one); blank lines are
skipped. -/
theorem stream_passthrough (pl : List Page) (r : ExportRunResult)
    (hpages : ∀ p ∈ pl, pageRowCount p ≠ 0)
    (hrun : runExport (pl ++ [[]]) = .ok r) :
    r.out = ((pl.flatten.filter (fun x => !isBlank x.bytes)).map
      (fun x => nlTerminate x.bytes)).flatten := by
  have hchar := runPages_ok_char pl none 0 ⟨0, none, none, []⟩ r hpages hrun
  subst hchar
  show [] ++ flatOut pl = _
  rw [List.nil_append, flatOut_eq_flatten]

/-- Witness for C8 (amended): a line without a trailing newline is
written with one appended. -/
theorem stream_passthrough_witness :
    (ExportRunResult.mk 1 (some 7) (some 7) 2 [123, 10]).out =
      [123, 10] :=
  (stream_passthrough [[⟨[123], some 7⟩]]
    ⟨1, some 7, some 7, 2, [123, 10]⟩ (by decide) (by decide)).trans
    (by decide)

/-- C8 counterexample: the endpoint emits a single blank line; the
claim says the file then holds that newline-terminated line, but the
exporter skips blank lines and writes nothing. -/
theorem passthrough_counterexample :
    runExport [[⟨[10], none⟩]] = .ok ⟨0, none, none, 1, []⟩ ∧
    nlTerminate [10] = [10] ∧ ([] : List Nat) ≠ [10] := by
  decide

/-- Full accounting of the retry loop, generalized over the starting
attempt index. -/
theorem retryFrom_spec {E V : Type} (url : String)
    (outcomes : Nat → Except E V) :
    ∀ remaining attempt,
      1 ≤ (retryFrom url outcomes remaining attempt).attemptsMade ∧
      (retryFrom url outcomes remaining attempt).attemptsMade ≤
        remaining + 1 ∧
      (retryFrom url outcomes remaining attempt).sleeps =
        (List.range
            ((retryFrom url outcomes remaining attempt).attemptsMade - 1)).map
          (fun i => backoff (attempt + i)) ∧
      (∀ i, i + 1 < (retryFrom url outcomes remaining attempt).attemptsMade →
        ∃ e, outcomes (attempt + i) = .error e) ∧
      (∀ f, (retryFrom url outcomes remaining attempt).result = .error f →
        f.url = url ∧ outcomes (attempt + remaining) = .error f.lastErr ∧
        (retryFrom url outcomes remaining attempt).attemptsMade =
          remaining + 1) ∧
      (∀ v, (retryFrom url outcomes remaining attempt).result = .ok v →
        outcomes (attempt +
          ((retryFrom url outcomes remaining attempt).attemptsMade - 1)) =
            .ok v) := by
  intro remaining
  induction remaining with
  | zero =>
    intro attempt
    cases ho : outcomes attempt with
    | ok v =>
      simp only [retryFrom, ho]
      refine ⟨le_refl 1, by omega, by simp, ?_, ?_, ?_⟩
      · intro i hi; omega
      · intro f hf; simp at hf
      · intro w hw
        simp at hw
        subst hw
        simpa using ho
    | error e =>
      simp only [retryFrom, ho]
      refine ⟨le_refl 1, by omega, by simp, ?_, ?_, ?_⟩
      · intro i hi; omega
      · intro f hf
        injection hf with hf
        subst hf
        refine ⟨rfl, ?_, by trivial⟩
        simpa using ho
      · intro w hw; simp at hw
  | succ r ih =>
    intro attempt
    cases ho : outcomes attempt with
    | ok v =>
      simp only [retryFrom, ho]
      refine ⟨le_refl 1, by omega, by simp, ?_, ?_, ?_⟩
      · intro i hi; omega
      · intro f hf; simp at hf
      · intro w hw
        simp at hw
        subst hw
        simpa using ho
    | error e =>
      rcases ih (attempt + 1) with ⟨ih1, ih2, ih3, ih4, ih5, ih6⟩
      simp only [retryFrom, ho]
      refine ⟨by omega, by omega, ?_, ?_, ?_, ?_⟩
      · simp only [Nat.add_sub_cancel]
        have hsplit : (retryFrom url outcomes r (attempt + 1)).attemptsMade =
            ((retryFrom url outcomes r (attempt + 1)).attemptsMade - 1) + 1 := by
          omega
        rw [ih3, hsplit, List.range_succ_eq_map]
        simp only [List.map_cons, List.map_map, Nat.add_zero]
        refine congrArg (backoff attempt :: ·) (List.map_congr_left ?_)
        intro i _
        simp only [Function.comp]
        congr 1
        omega
      · intro i hi
        cases i with
        | zero => exact ⟨e, by simpa using ho⟩
        | succ j =>
          have hj := ih4 j (by simpa using hi)
          rcases hj with ⟨e2, he2⟩
          refine ⟨e2, ?_⟩
          rw [show attempt + (j + 1) = attempt + 1 + j by omega]
          exact he2
      · intro f hf
        rcases ih5 f hf with ⟨hu, he, hn⟩
        refine ⟨hu, ?_, by omega⟩
        rw [show attempt + (r + 1) = attempt + 1 + r by omega]
        exact he
      · intro w hw
        have h6 := ih6 w hw
        have h1 := ih1
        rw [show attempt + ((retryFrom url outcomes r (attempt + 1)).attemptsMade + 1 - 1) =
          attempt + 1 + ((retryFrom url outcomes r (attempt + 1)).attemptsMade - 1) by omega]
        exact h6

/-- C4: at most R+1 attempts; a sleep of 1.5^attempt seconds between
consecutive failed attempts only; raises FetchErr with the URL and the
last underlying error after the final failed attempt. -/
theorem http_retry_spec {E V : Type} (url : String)
    (outcomes : Nat → Except E V) (retries : Nat) :
    (httpFetch url outcomes retries).attemptsMade ≤ retries + 1 ∧
    1 ≤ (httpFetch url outcomes retries).attemptsMade ∧
    (httpFetch url outcomes retries).sleeps =
      (List.range ((httpFetch url outcomes retries).attemptsMade - 1)).map
        backoff ∧
    (∀ i, i + 1 < (httpFetch url outcomes retries).attemptsMade →
      ∃ e, outcomes i = .error e) ∧
    (∀ f, (httpFetch url outcomes retries).result = .error f →
      f.url = url ∧ outcomes retries = .error f.lastErr ∧
      (httpFetch url outcomes retries).attemptsMade = retries + 1) := by
  rcases retryFrom_spec url outcomes retries 0 with ⟨h1, h2, h3, h4, h5, _⟩
  refine ⟨h2, h1, ?_, ?_, ?_⟩
  · rw [httpFetch, h3]
    exact List.map_congr_left (fun i _ => by rw [Nat.zero_add])
  · intro i hi
    have := h4 i hi
    simpa using this
  · intro f hf
    have := h5 f hf
    simpa using this

/-- Witness for C4: two failing attempts with retries = 1. -/
theorem http_retry_spec_witness :
    (httpFetch "u"
      (fun i => if i = 0 then (Except.error 7 : Except Nat Nat)
        else Except.error 9) 1).attemptsMade = 1 + 1 := by
  have h := http_retry_spec "u"
    (fun i => if i = 0 then (Except.error 7 : Except Nat Nat)
      else Except.error 9) 1
  exact (h.2.2.2.2 ⟨"u", 9⟩ rfl).2.2

/-- C5 counterexample: a capability document with maxLimit = 0 yields
the requested limit, not min(requested, 0) = 0. -/
theorem effective_limit_counterexample :
    effectiveLimit 10000 (some 0) = 10000 ∧
    min (10000 : Int) 0 = 0 ∧ (10000 : Int) ≠ 0 := by
  decide

/-- C5 (amended): the page size is min(requestedLimit, maxLimit)
whenever maxLimit is a nonzero integer; when maxLimit is zero or
absent the requested limit is used unchanged. -/
theorem effective_limit_spec (requested : Int) :
    (∀ v : Int, v ≠ 0 →
      effectiveLimit requested (some v) = min requested v) ∧
    effectiveLimit requested (some 0) = requested ∧
    effectiveLimit requested none = requested := by
  refine ⟨?_, ?_, ?_⟩
  · intro v hv
    simp [effectiveLimit, hv]
  · simp [effectiveLimit]
  · simp [effectiveLimit]

/-- Witness for C5 (amended). -/
theorem effective_limit_spec_witness :
    effectiveLimit 10000 (some 500) = min (10000 : Int) 500 :=
  (effective_limit_spec 10000).1 500 (by decide)

/-- C9: two builds over identical page contents produce byte-identical
compressed artifact files and identical digests, for any deterministic
hash function, even though the timestamps differ. -/
theorem rebuild_deterministic (hash : GzFile → String) (t1 t2 : Nat)
    (tag : String) (sp cp : List Page) (b1 b2 : ReleaseBuild)
    (h1 : buildRelease hash t1 tag sp cp = some b1)
    (h2 : buildRelease hash t2 tag sp cp = some b2) :
    b1.snapshotsFile = b2.snapshotsFile ∧
    b1.changesFile = b2.changesFile ∧
    b1.snapshotsSha = b2.snapshotsSha ∧
    b1.changesSha = b2.changesSha ∧
    b1.releasedAt = t1 ∧ b2.releasedAt = t2 := by
  unfold buildRelease at h1 h2
  cases hs : runExport sp with
  | ok s =>
    cases hc : runExport cp with
    | ok c =>
      rw [hs, hc] at h1 h2
      injection h1 with h1
      injection h2 with h2
      rw [← h1, ← h2]
      exact ⟨rfl, rfl, rfl, rfl, rfl, rfl⟩
    | protoErr e =>
      rw [hs, hc] at h1
      exact absurd h1 (by simp)
    | outOfPages =>
      rw [hs, hc] at h1
      exact absurd h1 (by simp)
  | protoErr e =>
    rw [hs] at h1
    exact absurd h1 (by simp)
  | outOfPages =>
    rw [hs] at h1
    exact absurd h1 (by simp)

/-- Witness for C9 at timestamps 0 and 5. -/
theorem rebuild_deterministic_witness :
    (ReleaseBuild.mk "t" 0 ⟨6, 0, [123, 10]⟩ ⟨6, 0, []⟩ "h" "h").snapshotsFile =
      (ReleaseBuild.mk "t" 5 ⟨6, 0, [123, 10]⟩ ⟨6, 0, []⟩ "h" "h").snapshotsFile := by
  have h := rebuild_deterministic (fun _ => "h") 0 5 "t"
    [[⟨[123, 10], some 1⟩], []] [[]]
    ⟨"t", 0, ⟨6, 0, [123, 10]⟩, ⟨6, 0, []⟩, "h", "h"⟩
    ⟨"t", 5, ⟨6, 0, [123, 10]⟩, ⟨6, 0, []⟩, "h", "h"⟩ rfl rfl
  exact h.1

end BuildRelease

namespace ValidateBundle

theorem okE_bind {α β : Type} (x : α) (f : α → Except String β) :
    (Except.ok x >>= f) = f x := rfl

theorem errE_bind {α β : Type} (e : String) (f : α → Except String β) :
    ((Except.error e : Except String α) >>= f) = .error e := rfl

theorem isOkE_iff {α : Type} (e : Except String α) :
    isOkE e = true ↔ ∃ b, e = .ok b := by
  cases e <;> simp [isOkE]

theorem reqStr_ok_iff (meta : String → Option JVal) (name k s : String) :
    reqStr meta name k = .ok s ↔
      ∃ s0, meta k = some (.jstr s0) ∧ (pyStrip s0) ≠ "" ∧ s = (pyStrip s0) := by
  unfold reqStr
  cases h : meta k with
  | none => simp
  | some v =>
    cases v with
    | jnull => simp
    | jbool b => simp
    | jint n => simp
    | jother => simp
    | jstr s0 =>
      by_cases ht : (pyStrip s0) = ""
      · simp [ht]
      · constructor
        · intro hs
          have hs2 : (if (pyStrip s0) = "" then
              (Except.error ("artifacts." ++ name ++ "." ++ k ++
                " must be a non-empty string") : Except String String)
            else Except.ok (pyStrip s0)) = Except.ok s := hs
          rw [if_neg ht] at hs2
          injection hs2 with hs2
          exact ⟨s0, rfl, ht, hs2.symm⟩
        · rintro ⟨s1, hs1, ht1, hseq⟩
          injection hs1 with hs1
          injection hs1 with hs1
          subst hs1
          show (if (pyStrip s0) = "" then
              (Except.error ("artifacts." ++ name ++ "." ++ k ++
                " must be a non-empty string") : Except String String)
            else Except.ok (pyStrip s0)) = Except.ok s
          rw [if_neg ht, hseq]

theorem reqInt_ok_iff (meta : String → Option JVal) (name k : String)
    (n : Int) :
    reqInt meta name k = .ok n ↔ intValOf (meta k) = some n := by
  unfold reqInt intValOf
  cases h : meta k with
  | none => simp
  | some v =>
    cases hv : asPyInt v with
    | none => simp [hv]
    | some m => simp [hv]

theorem optInt_ok_iff (meta : String → Option JVal) (name k : String)
    (o : Option Int) :
    optInt meta name k = .ok o ↔
      optIntFieldOk (meta k) ∧ o = optIntValOf (meta k) := by
  unfold optInt optIntFieldOk optIntValOf
  cases h : meta k with
  | none => simp [eq_comm]
  | some v =>
    cases v with
    | jnull => simp [eq_comm]
    | jbool b => simp [asPyInt, eq_comm]
    | jint n => simp [asPyInt, eq_comm]
    | jstr s => simp [asPyInt]
    | jother => simp [asPyInt]

theorem reqBool_ok_iff (meta : String → Option JVal) (name k : String)
    (b : Bool) :
    reqBool meta name k = .ok b ↔ meta k = some (.jbool b) := by
  unfold reqBool
  cases h : meta k with
  | none => simp
  | some v =>
    cases v with
    | jnull => simp
    | jbool b2 => simp
    | jint n => simp
    | jstr s => simp
    | jother => simp

theorem idChecks_ok_iff (name : String) (rows : Int)
    (minId maxId : Option Int) (req : Int) :
    idChecks name rows minId maxId req = .ok () ↔
      ((rows = 0 → minId = none ∧ maxId = none) ∧
       (rows ≠ 0 →
         ∃ m M, minId = some m ∧ maxId = some M ∧ m ≤ M ∧ 1 ≤ req)) := by
  unfold idChecks
  by_cases h0 : rows = 0
  · cases minId <;> cases maxId <;> simp [h0]
  · cases minId with
    | none => simp [h0]
    | some m =>
      cases maxId with
      | none => simp [h0]
      | some M =>
        by_cases hmM : m > M
        · simp only [if_neg h0, if_pos hmM]
          constructor
          · intro hcon
            exact absurd hcon (by simp)
          · rintro ⟨-, h2⟩
            rcases h2 h0 with ⟨m2, M2, hm2, hM2, hle, -⟩
            injection hm2 with hm2
            injection hM2 with hM2
            subst hm2
            subst hM2
            omega
        · by_cases hr : req < 1
          · simp only [if_neg h0, if_neg hmM, if_pos hr]
            constructor
            · intro hcon
              exact absurd hcon (by simp)
            · rintro ⟨-, h2⟩
              rcases h2 h0 with ⟨m2, M2, hm2, hM2, -, hq⟩
              omega
          · simp only [if_neg h0, if_neg hmM, if_neg hr]
            constructor
            · intro _
              exact ⟨fun hc => absurd hc h0,
                fun _ => ⟨m, M, rfl, rfl, by omega, by omega⟩⟩
            · intro _
              trivial

theorem intFieldOk_of_val {x : Option JVal} {n : Int}
    (h : intValOf x = some n) : intFieldOk x := by
  cases x with
  | none => simp [intValOf] at h
  | some v => exact ⟨v, n, rfl, by simpa [intValOf] using h⟩

/-- The parser returns `a` exactly when every field extracts
as recorded in `a` and the §3 invariants hold of `a`. -/
theorem parseArtifact_ok_char (meta : String → Option JVal)
    (name : String) (a : Artifact) :
    parseArtifact meta name = .ok a ↔
      (a.name = name ∧
       (∃ s0, meta "filename" = some (.jstr s0) ∧ (pyStrip s0) ≠ "" ∧
         a.filename = (pyStrip s0)) ∧
       (∃ s0, meta "sha256" = some (.jstr s0) ∧ (pyStrip s0) ≠ "" ∧
         a.sha256 = (pyStrip s0)) ∧
       intValOf (meta "rows") = some a.rows ∧
       optIntFieldOk (meta "minId") ∧ a.minId = optIntValOf (meta "minId") ∧
       optIntFieldOk (meta "maxId") ∧ a.maxId = optIntValOf (meta "maxId") ∧
       intValOf (meta "requestsMade") = some a.requestsMade ∧
       intValOf (meta "limitPerRequest") = some a.limitPerRequest ∧
       meta "truncated" = some (.jbool a.truncated) ∧
       0 ≤ a.rows ∧
       (a.rows = 0 → a.minId = none ∧ a.maxId = none) ∧
       (0 < a.rows → ∃ m M, a.minId = some m ∧ a.maxId = some M ∧
         m ≤ M ∧ 1 ≤ a.requestsMade) ∧
       0 < a.limitPerRequest ∧ 0 < a.requestsMade) := by
  constructor
  · intro ha
    unfold parseArtifact at ha
    obtain ⟨fn, h1⟩ : ∃ x, reqStr meta name "filename" = .ok x := by
      cases hx : reqStr meta name "filename" with
      | ok x => exact ⟨x, rfl⟩
      | error e =>
        rw [hx, errE_bind] at ha
        exact absurd ha (by simp)
    rw [h1] at ha
    simp only [okE_bind] at ha
    obtain ⟨sha, h2⟩ : ∃ x, reqStr meta name "sha256" = .ok x := by
      cases hx : reqStr meta name "sha256" with
      | ok x => exact ⟨x, rfl⟩
      | error e =>
        rw [hx, errE_bind] at ha
        exact absurd ha (by simp)
    rw [h2] at ha
    simp only [okE_bind] at ha
    obtain ⟨rows, h3⟩ : ∃ x, reqInt meta name "rows" = .ok x := by
      cases hx : reqInt meta name "rows" with
      | ok x => exact ⟨x, rfl⟩
      | error e =>
        rw [hx, errE_bind] at ha
        exact absurd ha (by simp)
    rw [h3] at ha
    simp only [okE_bind] at ha
    obtain ⟨minId, h4⟩ : ∃ x, optInt meta name "minId" = .ok x := by
      cases hx : optInt meta name "minId" with
      | ok x => exact ⟨x, rfl⟩
      | error e =>
        rw [hx, errE_bind] at ha
        exact absurd ha (by simp)
    rw [h4] at ha
    simp only [okE_bind] at ha
    obtain ⟨maxId, h5⟩ : ∃ x, optInt meta name "maxId" = .ok x := by
      cases hx : optInt meta name "maxId" with
      | ok x => exact ⟨x, rfl⟩
      | error e =>
        rw [hx, errE_bind] at ha
        exact absurd ha (by simp)
    rw [h5] at ha
    simp only [okE_bind] at ha
    obtain ⟨reqs, h6⟩ : ∃ x, reqInt meta name "requestsMade" = .ok x := by
      cases hx : reqInt meta name "requestsMade" with
      | ok x => exact ⟨x, rfl⟩
      | error e =>
        rw [hx, errE_bind] at ha
        exact absurd ha (by simp)
    rw [h6] at ha
    simp only [okE_bind] at ha
    obtain ⟨lim, h7⟩ : ∃ x, reqInt meta name "limitPerRequest" = .ok x := by
      cases hx : reqInt meta name "limitPerRequest" with
      | ok x => exact ⟨x, rfl⟩
      | error e =>
        rw [hx, errE_bind] at ha
        exact absurd ha (by simp)
    rw [h7] at ha
    simp only [okE_bind] at ha
    obtain ⟨tr, h8⟩ : ∃ x, reqBool meta name "truncated" = .ok x := by
      cases hx : reqBool meta name "truncated" with
      | ok x => exact ⟨x, rfl⟩
      | error e =>
        rw [hx, errE_bind] at ha
        exact absurd ha (by simp)
    rw [h8] at ha
    simp only [okE_bind] at ha
    by_cases hr0 : rows < 0
    · rw [if_pos hr0] at ha
      exact absurd ha (by simp)
    rw [if_neg hr0] at ha
    obtain ⟨u, hC⟩ : ∃ u, idChecks name rows minId maxId reqs = .ok u := by
      cases hx : idChecks name rows minId maxId reqs with
      | ok u => exact ⟨u, rfl⟩
      | error e =>
        rw [hx, errE_bind] at ha
        exact absurd ha (by simp)
    cases u
    rw [hC] at ha
    simp only [okE_bind] at ha
    by_cases hl0 : lim ≤ 0
    · rw [if_pos hl0] at ha
      exact absurd ha (by simp)
    rw [if_neg hl0] at ha
    by_cases hq0 : reqs ≤ 0
    · rw [if_pos hq0] at ha
      exact absurd ha (by simp)
    rw [if_neg hq0] at ha
    injection ha with ha
    subst ha
    dsimp only
    obtain ⟨s1, hs1, ht1, hf1⟩ := (reqStr_ok_iff meta name "filename" fn).mp h1
    obtain ⟨s2, hs2, ht2, hf2⟩ := (reqStr_ok_iff meta name "sha256" sha).mp h2
    have h3v := (reqInt_ok_iff meta name "rows" rows).mp h3
    obtain ⟨h4ok, h4v⟩ := (optInt_ok_iff meta name "minId" minId).mp h4
    obtain ⟨h5ok, h5v⟩ := (optInt_ok_iff meta name "maxId" maxId).mp h5
    have h6v := (reqInt_ok_iff meta name "requestsMade" reqs).mp h6
    have h7v := (reqInt_ok_iff meta name "limitPerRequest" lim).mp h7
    have h8v := (reqBool_ok_iff meta name "truncated" tr).mp h8
    obtain ⟨hi1, hi2⟩ := (idChecks_ok_iff name rows minId maxId reqs).mp hC
    refine ⟨rfl, ⟨s1, hs1, ht1, hf1⟩, ⟨s2, hs2, ht2, hf2⟩, h3v,
      h4ok, h4v, h5ok, h5v, h6v, h7v, h8v, by omega, hi1, ?_, by omega,
      by omega⟩
    intro hpos
    rcases hi2 (by omega) with ⟨m, M, hm, hM, hle, hq⟩
    exact ⟨m, M, hm, hM, hle, hq⟩
  · rintro ⟨hname, ⟨s1, hs1, ht1, hf1⟩, ⟨s2, hs2, ht2, hf2⟩, hrows,
      hminOk, hminV, hmaxOk, hmaxV, hreqs, hlim, htr, h0le, h0imp,
      hposimp, hlimpos, hreqpos⟩
    unfold parseArtifact
    have e1 : reqStr meta name "filename" = .ok a.filename :=
      (reqStr_ok_iff meta name "filename" a.filename).mpr ⟨s1, hs1, ht1, hf1⟩
    have e2 : reqStr meta name "sha256" = .ok a.sha256 :=
      (reqStr_ok_iff meta name "sha256" a.sha256).mpr ⟨s2, hs2, ht2, hf2⟩
    have e3 : reqInt meta name "rows" = .ok a.rows :=
      (reqInt_ok_iff meta name "rows" a.rows).mpr hrows
    have e4 : optInt meta name "minId" = .ok a.minId :=
      (optInt_ok_iff meta name "minId" a.minId).mpr ⟨hminOk, hminV⟩
    have e5 : optInt meta name "maxId" = .ok a.maxId :=
      (optInt_ok_iff meta name "maxId" a.maxId).mpr ⟨hmaxOk, hmaxV⟩
    have e6 : reqInt meta name "requestsMade" = .ok a.requestsMade :=
      (reqInt_ok_iff meta name "requestsMade" a.requestsMade).mpr hreqs
    have e7 : reqInt meta name "limitPerRequest" = .ok a.limitPerRequest :=
      (reqInt_ok_iff meta name "limitPerRequest" a.limitPerRequest).mpr hlim
    have e8 : reqBool meta name "truncated" = .ok a.truncated :=
      (reqBool_ok_iff meta name "truncated" a.truncated).mpr htr
    have eC : idChecks name a.rows a.minId a.maxId a.requestsMade = .ok () :=
      (idChecks_ok_iff name a.rows a.minId a.maxId a.requestsMade).mpr
        ⟨h0imp, fun hne => hposimp (by omega)⟩
    rw [e1]
    simp only [okE_bind]
    rw [e2]
    simp only [okE_bind]
    rw [e3]
    simp only [okE_bind]
    rw [e4]
    simp only [okE_bind]
    rw [e5]
    simp only [okE_bind]
    rw [e6]
    simp only [okE_bind]
    rw [e7]
    simp only [okE_bind]
    rw [e8]
    simp only [okE_bind]
    rw [if_neg (by omega : ¬a.rows < 0), eC]
    simp only [okE_bind]
    rw [if_neg (by omega : ¬a.limitPerRequest ≤ 0),
      if_neg (by omega : ¬a.requestsMade ≤ 0), ← hname]

/-- C6: the artifact parser succeeds exactly on objects satisfying
the spec's typing and invariants, and the returned Artifact carries
the extracted field values. -/
theorem parse_artifact_iff_valid (meta : String → Option JVal)
    (name : String) :
    (isOkE (parseArtifact meta name) = true ↔ validArtifactMeta meta) ∧
    (∀ a, parseArtifact meta name = .ok a →
      a.name = name ∧
      intValOf (meta "rows") = some a.rows ∧
      a.minId = optIntValOf (meta "minId") ∧
      a.maxId = optIntValOf (meta "maxId") ∧
      intValOf (meta "requestsMade") = some a.requestsMade ∧
      intValOf (meta "limitPerRequest") = some a.limitPerRequest ∧
      meta "truncated" = some (.jbool a.truncated) ∧
      (∃ s, meta "filename" = some (.jstr s) ∧ a.filename = (pyStrip s)) ∧
      (∃ s, meta "sha256" = some (.jstr s) ∧ a.sha256 = (pyStrip s))) := by
  constructor
  · rw [isOkE_iff]
    constructor
    · rintro ⟨a, ha⟩
      obtain ⟨hname, ⟨s1, hs1, ht1, hf1⟩, ⟨s2, hs2, ht2, hf2⟩, hrows,
        hminOk, hminV, hmaxOk, hmaxV, hreqs, hlim, htr, h0le, h0imp,
        hposimp, hlimpos, hreqpos⟩ := (parseArtifact_ok_char meta name a).mp ha
      refine ⟨⟨s1, hs1, ht1⟩, ⟨s2, hs2, ht2⟩, intFieldOk_of_val hrows,
        hminOk, hmaxOk, intFieldOk_of_val hreqs, intFieldOk_of_val hlim,
        ⟨a.truncated, htr⟩, ?_, ?_, ?_⟩
      · intro r hr
        rw [hrows] at hr
        injection hr with hr
        subst hr
        refine ⟨h0le, ?_, ?_⟩
        · intro h0
          rcases h0imp h0 with ⟨hm, hM⟩
          rw [← hminV, ← hmaxV]
          exact ⟨hm, hM⟩
        · intro hpos
          rcases hposimp hpos with ⟨m, M, hm, hM, hle, hq⟩
          refine ⟨m, M, ?_, ?_, hle, ?_⟩
          · rw [← hminV]
            exact hm
          · rw [← hmaxV]
            exact hM
          · intro q hq2
            rw [hreqs] at hq2
            injection hq2 with hq2
            omega
      · intro l hl
        rw [hlim] at hl
        injection hl with hl
        omega
      · intro q hq
        rw [hreqs] at hq
        injection hq with hq
        omega
    · rintro ⟨⟨s1, hs1, ht1⟩, ⟨s2, hs2, ht2⟩, hrowsOk, hminOk, hmaxOk,
        hreqOk, hlimOk, ⟨b, hb⟩, hinv, hlimpos, hreqpos⟩
      obtain ⟨vr, nr, hvr, hnr⟩ := hrowsOk
      obtain ⟨vq, nq, hvq, hnq⟩ := hreqOk
      obtain ⟨vl, nl, hvl, hnl⟩ := hlimOk
      have hIntRows : intValOf (meta "rows") = some nr := by
        rw [intValOf, hvr]
        simpa using hnr
      have hIntReqs : intValOf (meta "requestsMade") = some nq := by
        rw [intValOf, hvq]
        simpa using hnq
      have hIntLim : intValOf (meta "limitPerRequest") = some nl := by
        rw [intValOf, hvl]
        simpa using hnl
      obtain ⟨hi0, hiz, hip⟩ := hinv nr hIntRows
      refine ⟨⟨name, (pyStrip s1), (pyStrip s2), nr, optIntValOf (meta "minId"),
        optIntValOf (meta "maxId"), nq, nl, b⟩,
        (parseArtifact_ok_char meta name _).mpr
          ⟨rfl, ⟨s1, hs1, ht1, rfl⟩, ⟨s2, hs2, ht2, rfl⟩, hIntRows,
           hminOk, rfl, hmaxOk, rfl, hIntReqs, hIntLim, hb, hi0, hiz, ?_,
           hlimpos nl hIntLim, hreqpos nq hIntReqs⟩⟩
      intro hpos
      rcases hip hpos with ⟨m, M, hm, hM, hle, hq⟩
      exact ⟨m, M, hm, hM, hle, hq nq hIntReqs⟩
  · intro a ha
    obtain ⟨hname, ⟨s1, hs1, ht1, hf1⟩, ⟨s2, hs2, ht2, hf2⟩, hrows,
      hminOk, hminV, hmaxOk, hmaxV, hreqs, hlim, htr, -, -, -, -, -⟩ :=
      (parseArtifact_ok_char meta name a).mp ha
    exact ⟨hname, hrows, hminV, hmaxV, hreqs, hlim, htr,
      ⟨s1, hs1, hf1⟩, ⟨s2, hs2, hf2⟩⟩

/-- Witness for C6: parsing the sample object succeeds and returns
the extracted artifact. -/
theorem parse_artifact_iff_valid_witness :
    (Artifact.mk "snapshots" "healtharchive-snapshots.jsonl.gz" "ab12"
      2 (some 1) (some 3) 1 5 false).name = "snapshots" ∧
    intValOf (sampleMeta "rows") = some 2 := by
  have h := (parse_artifact_iff_valid sampleMeta "snapshots").2
    ⟨"snapshots", "healtharchive-snapshots.jsonl.gz", "ab12",
      2, some 1, some 3, 1, 5, false⟩ (by rfl)
  exact ⟨h.1, h.2.1⟩

/-- C7: with both artifacts schema-valid, validation fails on a
truncated artifact unless allow-truncated is set, fails on a zero-row
artifact unless allow-empty is set, and on success warns exactly when
a truncated flag is set. -/
theorem publish_gates_spec (s c : Artifact) (aT aE : Bool) :
    (isOkE (publishGates s c aT aE) = true ↔
      ((aT = true ∨ (s.truncated = false ∧ c.truncated = false)) ∧
       (aE = true ∨ (s.rows ≠ 0 ∧ c.rows ≠ 0)))) ∧
    (∀ w, publishGates s c aT aE = .ok w →
      w = (s.truncated || c.truncated)) := by
  unfold publishGates isOkE
  cases aT <;> cases aE <;>
    cases hst : s.truncated <;> cases hct : c.truncated <;>
    by_cases h1 : s.rows = 0 <;> by_cases h2 : c.rows = 0 <;>
    simp [h1, h2]

/-- Witness for C7: untruncated, non-empty artifacts pass with both
overrides unset. -/
theorem publish_gates_spec_witness :
    isOkE (publishGates
      ⟨"snapshots", "s.gz", "h", 1, some 1, some 1, 1, 1, false⟩
      ⟨"changes", "c.gz", "h", 2, some 1, some 2, 1, 1, false⟩
      false false) = true :=
  (publish_gates_spec
    ⟨"snapshots", "s.gz", "h", 1, some 1, some 1, 1, 1, false⟩
    ⟨"changes", "c.gz", "h", 2, some 1, some 2, 1, 1, false⟩
    false false).1.mpr
    ⟨Or.inr ⟨rfl, rfl⟩, Or.inr ⟨by decide, by decide⟩⟩

theorem mem_firstKeys (l : List String) (x : String) :
    x ∈ firstKeys l ↔ x ∈ l := by
  induction l with
  | nil => simp [firstKeys]
  | cons k r ih =>
    by_cases hxk : x = k
    · simp [firstKeys, hxk]
    · simp [firstKeys, List.mem_filter, ih, hxk]

theorem checkFiles_ok_iff (hash : List Nat → String)
    (disk : String → Option (List Nat)) (pairs : List (String × String))
    (keys : List String) :
    checkFiles hash disk pairs keys = .ok () ↔
      ∀ fn ∈ keys, ∃ content, disk fn = some content ∧
        lastVal pairs fn = some (hash content) := by
  induction keys with
  | nil => simp [checkFiles]
  | cons fn rest ih =>
    simp only [checkFiles]
    cases hd : disk fn with
    | none => simp [hd]
    | some content =>
      cases hv : lastVal pairs fn with
      | none => simp [hd, hv]
      | some sha =>
        by_cases hh : hash content = sha
        · simp [hd, hv, hh, ih]
        · simp [hd, hv, ih, hh, Ne.symm hh]

/-- C10: checksum validation succeeds exactly when the listing parses,
is non-empty, and for every listed filename the file exists on disk
with a digest equal to the digest on the LAST listing line naming that
filename; digests from earlier duplicate lines are never compared. -/
theorem sums_last_digest_wins (hash : List Nat → String)
    (disk : String → Option (List Nat)) (lines : List (List String)) :
    validateSums hash disk lines = .ok () ↔
      ∃ pairs, parseSums lines = .ok pairs ∧ pairs ≠ [] ∧
        ∀ fn ∈ pairs.map Prod.fst, ∃ content, disk fn = some content ∧
          lastVal pairs fn = some (hash content) := by
  cases hp : parseSums lines with
  | error e =>
    have hval : validateSums hash disk lines = .error e := by
      unfold validateSums
      rw [hp]
    rw [hval]
    simp [hp]
  | ok pairs =>
    by_cases hne : pairs.isEmpty
    · have hval : validateSums hash disk lines =
          .error "SHA256SUMS is empty" := by
        unfold validateSums
        rw [hp]
        simp [hne]
      rw [hval]
      simp [hp, List.isEmpty_iff.mp hne]
    · have hval : validateSums hash disk lines =
          checkFiles hash disk pairs (firstKeys (pairs.map Prod.fst)) := by
        unfold validateSums
        rw [hp]
        simp [hne]
      rw [hval, checkFiles_ok_iff]
      constructor
      · intro h
        refine ⟨pairs, rfl, fun hcon => hne (by simp [hcon]), ?_⟩
        intro fn hfn
        exact h fn ((mem_firstKeys _ _).mpr hfn)
      · rintro ⟨pairs2, hpe, _, hall⟩
        injection hpe with hpe
        subst hpe
        intro fn hfn
        exact hall fn ((mem_firstKeys _ _).mp hfn)

/-- Witness for C10: a listing with two lines for the same filename,
where the earlier digest does not match the file on disk, passes. -/
theorem sums_last_digest_wins_witness :
    validateSums (fun _ => "bbb")
      (fun s => if s = "f" then some [1] else none)
      [["aaa", "f"], ["bbb", "f"]] = .ok () ∧
    "aaa" ≠ "bbb" := by
  constructor
  · apply (sums_last_digest_wins (fun _ => "bbb")
      (fun s => if s = "f" then some [1] else none)
      [["aaa", "f"], ["bbb", "f"]]).mpr
    refine ⟨[("f", "aaa"), ("f", "bbb")], rfl, by simp, ?_⟩
    intro fn hfn
    have hf : fn = "f" := by
      simpa using hfn
    subst hf
    exact ⟨[1], rfl, rfl⟩
  · decide

end ValidateBundle
